import Mathlib

/-!
Shallow embedding of `src/app.py` (Library Books API): the in-memory store
(`books` list plus `_next_id` counter), the five endpoint handlers, and the
file persistence layer (`save_books` / `load_books`).  Python integers are
unbounded, so ids and the counter are modelled as `Int`; strings as `String`.
The file on disk is modelled as the list of well-typed JSON objects that
`json.dump([b.dict() for b in books], ...)` produces: each object has exactly
the keys `id`, `title`, `author`, `year` with integer / string values
(`RawBook` below).  Pydantic validation of `Book(**item)` is the predicate
checked by `parseRaw`.
-/

namespace LibraryBooks

/-- Model of `BookIn` (app.py lines 12-15): request body with pydantic constraints
`title: min_length=1`, `author: min_length=1`, `year: ge=0`. -/
structure BookIn where
  title : String
  author : String
  year : Int
deriving Repr, DecidableEq

/-- The pydantic constraints on `BookIn`: non-empty title and author,
`year >= 0`. -/
def BookIn.valid (p : BookIn) : Prop :=
  1 ≤ p.title.length ∧ 1 ≤ p.author.length ∧ 0 ≤ p.year

instance (p : BookIn) : Decidable p.valid := by
  unfold BookIn.valid; infer_instance

/-- Model of `Book` (app.py lines 17-18): `BookIn` plus `id: int`.  Note the `id`
field carries no `ge=0` constraint in the source. -/
structure Book where
  id : Int
  title : String
  author : String
  year : Int
deriving Repr, DecidableEq

/-- The pydantic constraints checked when a `Book` is constructed from raw
data (`Book(**item)`): the inherited `BookIn` field constraints.  `id` is an
unconstrained integer. -/
def Book.validFields (b : Book) : Prop :=
  1 ≤ b.title.length ∧ 1 ≤ b.author.length ∧ 0 ≤ b.year

instance (b : Book) : Decidable b.validFields := by
  unfold Book.validFields; infer_instance

/-- The module-level mutable state of app.py: the global `books` list
(line 22) and the global `_next_id` counter (line 23). -/
structure Store where
  books : List Book
  _next_id : Int
deriving Repr, DecidableEq

/-- The state at module initialization: `books = []`, `_next_id = 1`
(app.py lines 22-23). -/
def initStore : Store := { books := [], _next_id := 1 }

/-- The error raised by the handlers: `HTTPException(status_code=404,
detail="Book not found")`. -/
inductive ApiError where
  | notFound
deriving Repr, DecidableEq

/-- One well-typed JSON object of the persisted array: keys `id`, `title`,
`author`, `year` (spec section 6; exactly what `b.dict()` emits). -/
structure RawBook where
  id : Int
  title : String
  author : String
  year : Int
deriving Repr, DecidableEq

/-- Model of `b.dict()` as used by `save_books` (app.py line 42). -/
def Book.toRaw (b : Book) : RawBook :=
  { id := b.id, title := b.title, author := b.author, year := b.year }

/-- Model of `Book(**item)` (app.py line 32): pydantic validates the `BookIn` field
constraints (non-empty `title` and `author`, `year >= 0`); the `id` field is
accepted as any integer.  Returns `none` when validation raises. -/
def parseRaw (r : RawBook) : Option Book :=
  if 1 ≤ r.title.length ∧ 1 ≤ r.author.length ∧ 0 ≤ r.year then
    some { id := r.id, title := r.title, author := r.author, year := r.year }
  else
    none

/-- Model of `save_books` (app.py lines 38-42): serializes the current list to the
file, i.e. the resulting file content is `[b.dict() for b in books]`. -/
def save_books (s : Store) : List RawBook :=
  s.books.map Book.toRaw

/-- Model of `max(b.id for b in books)` for a non-empty list (app.py line 34);
returns `0` on `[]`, a case the source never evaluates. -/
def maxId : List Book → Int
  | [] => 0
  | b :: bs => bs.foldl (fun m x => max m x.id) b.id

/-- The list comprehension `[Book(**item) for item in data]` (app.py
line 32): parse every item, propagating the first validation failure. -/
def parseAll : List RawBook → Option (List Book)
  | [] => some []
  | r :: rs =>
    match parseRaw r with
    | none => none
    | some b => (parseAll rs).map (b :: ·)

/-- Model of `load_books` (app.py lines 26-36).  `file = none` models a missing
`DATA_FILE`: the state is left untouched.  Otherwise each array item is run
through `Book(**item)`; if any item fails validation the exception
propagates (`none`) and the globals keep their previous values.  On success
`books` is replaced and `_next_id` is set to `max(b.id) + 1`, or `1` when
the loaded list is empty. -/
def load_books (file : Option (List RawBook)) (s : Store) : Option Store :=
  match file with
  | none => some s
  | some data =>
    match parseAll data with
    | none => none
    | some bs =>
      some { books := bs, _next_id := if bs.isEmpty then 1 else maxId bs + 1 }

/-- Model of `get_books` (app.py lines 49-52): returns the whole list. -/
def get_books (s : Store) : List Book :=
  s.books

/-- The loop of `get_book` (app.py lines 57-59): return the first book whose
`id` matches. -/
def findFirst (book_id : Int) : List Book → Option Book
  | [] => none
  | b :: bs => if b.id = book_id then some b else findFirst book_id bs

/-- Model of `get_book` (app.py lines 54-60): first matching book, else 404.  The
handler never mutates the store. -/
def get_book (s : Store) (book_id : Int) : Except ApiError Book :=
  match findFirst book_id s.books with
  | some b => .ok b
  | none => .error .notFound

/-- Model of `create_book` (app.py lines 62-70): build `Book(id=_next_id, **payload)`,
increment `_next_id`, append, persist.  Returns the new book and the new
state; the handler has no failure path. -/
def create_book (s : Store) (payload : BookIn) : Book × Store :=
  let new_book : Book :=
    { id := s._next_id, title := payload.title, author := payload.author,
      year := payload.year }
  (new_book, { books := s.books ++ [new_book], _next_id := s._next_id + 1 })

/-- The loop of `update_book` (app.py lines 75-78): replace the first book
whose `id` matches by `new`, in place; `none` when no book matches. -/
def replaceFirst (book_id : Int) (new : Book) : List Book → Option (List Book)
  | [] => none
  | b :: bs =>
    if b.id = book_id then some (new :: bs)
    else (replaceFirst book_id new bs).map (b :: ·)

/-- Model of `update_book` (app.py lines 72-81): on a match, `books[i] = updated`
with `updated = Book(id=book_id, **payload)`, persist, return it; otherwise
404 and the state is untouched. -/
def update_book (s : Store) (book_id : Int) (payload : BookIn) :
    Except ApiError Book × Store :=
  let updated : Book :=
    { id := book_id, title := payload.title, author := payload.author,
      year := payload.year }
  match replaceFirst book_id updated s.books with
  | some bs => (.ok updated, { s with books := bs })
  | none => (.error .notFound, s)

/-- The loop of `delete_book` (app.py lines 86-88): `books.pop(i)` at the
first index whose book matches; `none` when no book matches. -/
def removeFirst (book_id : Int) : List Book → Option (List Book)
  | [] => none
  | b :: bs =>
    if b.id = book_id then some bs
    else (removeFirst book_id bs).map (b :: ·)

/-- Model of `delete_book` (app.py lines 83-91): on a match, remove the book, persist,
return 204 (no content, modelled as `Unit`); otherwise 404 and the state is
untouched. -/
def delete_book (s : Store) (book_id : Int) : Except ApiError Unit × Store :=
  match removeFirst book_id s.books with
  | some bs => (.ok (), { s with books := bs })
  | none => (.error .notFound, s)

/-- One mutating API call, for reasoning about traces of operations. -/
inductive Op where
  | create (payload : BookIn)
  | update (book_id : Int) (payload : BookIn)
  | delete (book_id : Int)
deriving Repr, DecidableEq

/-- The state after one mutating call (the 404 paths leave the state
unchanged, as in the handlers). -/
def applyOp (s : Store) : Op → Store
  | .create payload => (create_book s payload).2
  | .update book_id payload => (update_book s book_id payload).2
  | .delete book_id => (delete_book s book_id).2

/-- The state after a sequence of mutating calls. -/
def execTrace (s : Store) (ops : List Op) : Store :=
  ops.foldl applyOp s

/-- The ids returned by a sequence of `create_book` calls, each performed on
the state left by the previous one. -/
def runCreates (s : Store) : List BookIn → List Int
  | [] => []
  | p :: ps => (create_book s p).1.id :: runCreates (create_book s p).2 ps

/-- The ids returned by the create calls of a mixed trace, in call order. -/
def createdIds (s : Store) : List Op → List Int
  | [] => []
  | .create p :: rest =>
    (create_book s p).1.id :: createdIds (create_book s p).2 rest
  | .update book_id p :: rest => createdIds (update_book s book_id p).2 rest
  | .delete book_id :: rest => createdIds (delete_book s book_id).2 rest

/-- The store invariant from spec section 3: the id counter is strictly
greater than every id currently held. -/
def counterAbove (s : Store) : Prop :=
  ∀ b ∈ s.books, b.id < s._next_id

instance (s : Store) : Decidable (counterAbove s) := by
  unfold counterAbove; infer_instance

/-! ### Lemmas about the linear-scan loops -/

theorem findFirst_eq_none {book_id : Int} :
    ∀ {bs : List Book}, findFirst book_id bs = none ↔ ∀ b ∈ bs, b.id ≠ book_id
  | [] => by simp [findFirst]
  | b :: bs => by
    by_cases hb : b.id = book_id
    · simp [findFirst, hb]
    · simp [findFirst, hb, @findFirst_eq_none book_id bs]

theorem findFirst_append_of_no_match {book_id : Int} {l1 : List Book}
    (h : ∀ x ∈ l1, x.id ≠ book_id) (bs : List Book) :
    findFirst book_id (l1 ++ bs) = findFirst book_id bs := by
  induction l1 with
  | nil => rfl
  | cons a l ih =>
    have ha : a.id ≠ book_id := h a (by simp)
    simp only [List.cons_append, findFirst, if_neg ha]
    exact ih fun x hx => h x (by simp [hx])

theorem findFirst_cons_of_match {book_id : Int} {b : Book} (hb : b.id = book_id)
    (bs : List Book) : findFirst book_id (b :: bs) = some b := by
  simp [findFirst, hb]

theorem replaceFirst_eq_none {book_id : Int} {new : Book} :
    ∀ {bs : List Book},
      replaceFirst book_id new bs = none ↔ ∀ b ∈ bs, b.id ≠ book_id
  | [] => by simp [replaceFirst]
  | b :: bs => by
    by_cases hb : b.id = book_id
    · simp [replaceFirst, hb]
    · simp [replaceFirst, hb, @replaceFirst_eq_none book_id new bs]

theorem replaceFirst_eq_some {book_id : Int} {new : Book} :
    ∀ {bs bs' : List Book}, replaceFirst book_id new bs = some bs' →
      ∃ l1 b l2, bs = l1 ++ b :: l2 ∧ (∀ x ∈ l1, x.id ≠ book_id) ∧
        b.id = book_id ∧ bs' = l1 ++ new :: l2
  | [], _, h => by simp [replaceFirst] at h
  | b :: bs, bs', h => by
    by_cases hb : b.id = book_id
    · refine ⟨[], b, bs, by simp, by simp, hb, ?_⟩
      simp [replaceFirst, hb] at h
      simp [h.symm]
    · simp only [replaceFirst, if_neg hb, Option.map_eq_some'] at h
      obtain ⟨bs0, hbs0, rfl⟩ := h
      obtain ⟨l1, c, l2, hsplit, hl1, hc, hres⟩ := replaceFirst_eq_some hbs0
      exact ⟨b :: l1, c, l2, by simp [hsplit], by
        intro x hx
        rcases List.mem_cons.1 hx with rfl | hx
        · exact hb
        · exact hl1 x hx, hc, by simp [hres]⟩

theorem removeFirst_eq_none {book_id : Int} :
    ∀ {bs : List Book}, removeFirst book_id bs = none ↔ ∀ b ∈ bs, b.id ≠ book_id
  | [] => by simp [removeFirst]
  | b :: bs => by
    by_cases hb : b.id = book_id
    · simp [removeFirst, hb]
    · simp [removeFirst, hb, @removeFirst_eq_none book_id bs]

theorem removeFirst_eq_some {book_id : Int} :
    ∀ {bs bs' : List Book}, removeFirst book_id bs = some bs' →
      ∃ l1 b l2, bs = l1 ++ b :: l2 ∧ (∀ x ∈ l1, x.id ≠ book_id) ∧
        b.id = book_id ∧ bs' = l1 ++ l2
  | [], _, h => by simp [removeFirst] at h
  | b :: bs, bs', h => by
    by_cases hb : b.id = book_id
    · refine ⟨[], b, bs, by simp, by simp, hb, ?_⟩
      simp [removeFirst, hb] at h
      simp [h.symm]
    · simp only [removeFirst, if_neg hb, Option.map_eq_some'] at h
      obtain ⟨bs0, hbs0, rfl⟩ := h
      obtain ⟨l1, c, l2, hsplit, hl1, hc, hres⟩ := removeFirst_eq_some hbs0
      exact ⟨b :: l1, c, l2, by simp [hsplit], by
        intro x hx
        rcases List.mem_cons.1 hx with rfl | hx
        · exact hb
        · exact hl1 x hx, hc, by simp [hres]⟩

/-! ### Invariant and trace lemmas -/

theorem update_book_next_id (s : Store) (book_id : Int) (payload : BookIn) :
    (update_book s book_id payload).2._next_id = s._next_id := by
  unfold update_book
  cases hrep : replaceFirst book_id
      { id := book_id, title := payload.title, author := payload.author,
        year := payload.year } s.books <;> simp [hrep]

theorem delete_book_next_id (s : Store) (book_id : Int) :
    (delete_book s book_id).2._next_id = s._next_id := by
  unfold delete_book
  cases hrep : removeFirst book_id s.books <;> simp [hrep]

theorem applyOp_next_id_mono (s : Store) (op : Op) :
    s._next_id ≤ (applyOp s op)._next_id := by
  cases op with
  | create payload => simp [applyOp, create_book]
  | update book_id payload => simp [applyOp, update_book_next_id]
  | delete book_id => simp [applyOp, delete_book_next_id]

theorem counterAbove_applyOp {s : Store} (op : Op) (h : counterAbove s) :
    counterAbove (applyOp s op) := by
  cases op with
  | create payload =>
    intro b hb
    simp only [applyOp, create_book, List.mem_append, List.mem_singleton] at hb ⊢
    rcases hb with hb | rfl
    · have := h b hb; omega
    · simp
  | update book_id payload =>
    simp only [applyOp, update_book]
    cases hrep : replaceFirst book_id
        { id := book_id, title := payload.title, author := payload.author,
          year := payload.year } s.books with
    | none => exact h
    | some bs =>
      obtain ⟨l1, b, l2, hsplit, _, hbid, rfl⟩ := replaceFirst_eq_some hrep
      intro x hx
      simp only [List.mem_append, List.mem_cons] at hx
      rcases hx with hx | rfl | hx
      · exact h x (by simp [hsplit, hx])
      · have := h b (by simp [hsplit])
        simpa [hbid] using this
      · exact h x (by simp [hsplit, hx])
  | delete book_id =>
    simp only [applyOp, delete_book]
    cases hrep : removeFirst book_id s.books with
    | none => exact h
    | some bs =>
      obtain ⟨l1, b, l2, hsplit, _, _, rfl⟩ := removeFirst_eq_some hrep
      intro x hx
      simp only [List.mem_append] at hx
      rcases hx with hx | hx
      · exact h x (by simp [hsplit, hx])
      · exact h x (by simp [hsplit, hx])

theorem counterAbove_execTrace {s : Store} (ops : List Op) (h : counterAbove s) :
    counterAbove (execTrace s ops) := by
  induction ops generalizing s with
  | nil => exact h
  | cons op rest ih => exact ih (counterAbove_applyOp op h)

theorem execTrace_next_id_mono (s : Store) (ops : List Op) :
    s._next_id ≤ (execTrace s ops)._next_id := by
  induction ops generalizing s with
  | nil => exact le_refl _
  | cons op rest ih =>
    exact le_trans (applyOp_next_id_mono s op) (ih (applyOp s op))

theorem createdIds_lower_bound {i : Int} :
    ∀ (ops : List Op) (s : Store), i ∈ createdIds s ops → s._next_id ≤ i
  | [], s, h => by simp [createdIds] at h
  | .create p :: rest, s, h => by
    simp only [createdIds, List.mem_cons] at h
    rcases h with rfl | h
    · exact le_refl _
    · have := createdIds_lower_bound rest (create_book s p).2 h
      simp only [create_book] at this
      omega
  | .update book_id p :: rest, s, h => by
    have := createdIds_lower_bound rest (update_book s book_id p).2 h
    rw [update_book_next_id] at this
    exact this
  | .delete book_id :: rest, s, h => by
    have := createdIds_lower_bound rest (delete_book s book_id).2 h
    rw [delete_book_next_id] at this
    exact this

theorem runCreates_lower_bound {i : Int} :
    ∀ (ps : List BookIn) (s : Store), i ∈ runCreates s ps → s._next_id ≤ i
  | [], s, h => by simp [runCreates] at h
  | p :: ps, s, h => by
    simp only [runCreates, List.mem_cons] at h
    rcases h with rfl | h
    · exact le_refl _
    · have := runCreates_lower_bound ps (create_book s p).2 h
      simp only [create_book] at this
      omega

theorem runCreates_pairwise_lt :
    ∀ (ps : List BookIn) (s : Store), (runCreates s ps).Pairwise (· < ·)
  | [], _ => by simp [runCreates]
  | p :: ps, s => by
    simp only [runCreates, List.pairwise_cons]
    refine ⟨fun i hi => ?_, runCreates_pairwise_lt ps _⟩
    have := runCreates_lower_bound ps (create_book s p).2 hi
    simp only [create_book] at this ⊢
    omega

theorem parseAll_map_toRaw_of_valid :
    ∀ {bs : List Book}, (∀ b ∈ bs, b.validFields) →
      parseAll (bs.map Book.toRaw) = some bs
  | [], _ => rfl
  | b :: bs, h => by
    have hb : b.validFields := h b (by simp)
    unfold Book.validFields at hb
    have hrest := @parseAll_map_toRaw_of_valid
      bs (fun x hx => h x (by simp [hx]))
    simp [parseAll, parseRaw, Book.toRaw, hb.1, hb.2.1, hb.2.2, hrest]

theorem parseAll_isSome_iff :
    ∀ {data : List RawBook},
      (∀ r ∈ data, 1 ≤ r.title.length ∧ 1 ≤ r.author.length ∧ 0 ≤ r.year) ↔
        ∃ bs, parseAll data = some bs
  | [] => by simp [parseAll]
  | r :: rs => by
    by_cases hr : 1 ≤ r.title.length ∧ 1 ≤ r.author.length ∧ 0 ≤ r.year
    · constructor
      · intro h
        obtain ⟨bs', hbs'⟩ := (@parseAll_isSome_iff rs).1
          (fun x hx => h x (by simp [hx]))
        refine ⟨⟨r.id, r.title, r.author, r.year⟩ :: bs', ?_⟩
        simp [parseAll, parseRaw, if_pos hr, hbs']
      · rintro ⟨bs, hbs⟩ x hx
        rcases List.mem_cons.1 hx with rfl | hx
        · exact hr
        · refine (@parseAll_isSome_iff rs).2 ?_ x hx
          simp only [parseAll, parseRaw, if_pos hr] at hbs
          obtain ⟨bs0, hbs0, _⟩ := Option.map_eq_some'.1 hbs
          exact ⟨bs0, hbs0⟩
    · constructor
      · intro h; exact absurd (h r (by simp)) hr
      · rintro ⟨bs, hbs⟩
        simp [parseAll, parseRaw, if_neg hr] at hbs

theorem parseAll_map_toRaw :
    ∀ {data : List RawBook} {bs : List Book}, parseAll data = some bs →
      bs.map Book.toRaw = data
  | [], bs, h => by
    simp only [parseAll, Option.some.injEq] at h
    simp [← h]
  | r :: rs, bs, h => by
    by_cases hr : 1 ≤ r.title.length ∧ 1 ≤ r.author.length ∧ 0 ≤ r.year
    · simp only [parseAll, parseRaw, if_pos hr] at h
      obtain ⟨bs0, hbs0, rfl⟩ := Option.map_eq_some'.1 h
      simp [parseAll_map_toRaw hbs0, Book.toRaw]
    · simp [parseAll, parseRaw, if_neg hr] at h

theorem load_books_some_eq (data : List RawBook) (s : Store) :
    load_books (some data) s =
      match parseAll data with
      | none => none
      | some bs =>
        some ⟨bs, if bs.isEmpty then 1 else maxId bs + 1⟩ := rfl

theorem update_book_eq (s : Store) (book_id : Int) (payload : BookIn) :
    update_book s book_id payload =
      match replaceFirst book_id
          ⟨book_id, payload.title, payload.author, payload.year⟩ s.books with
      | some bs =>
        (.ok ⟨book_id, payload.title, payload.author, payload.year⟩,
          { s with books := bs })
      | none => (.error .notFound, s) := rfl

/-! ### Claim theorems -/

/-- C1: for every sequence of `create_book` calls from the initial empty
store the returned ids are strictly increasing and pairwise distinct; after
every trace of mutating operations the id counter is strictly greater than
every id held in the store; and an id removed by a successful `delete_book`
(from a state satisfying that counter invariant) is never returned by a
later `create_book`. -/
theorem claim1_ids_fresh (ps : List BookIn) (ops : List Op) :
    (runCreates initStore ps).Pairwise (· < ·) ∧
    (runCreates initStore ps).Nodup ∧
    counterAbove (execTrace initStore ops) ∧
    (∀ (s : Store) (book_id : Int) (s' : Store), counterAbove s →
      delete_book s book_id = (.ok (), s') →
      ∀ rest : List Op, book_id ∉ createdIds s' rest) := by
  refine ⟨runCreates_pairwise_lt ps initStore,
    (runCreates_pairwise_lt ps initStore).imp (fun hab => ne_of_lt hab),
    counterAbove_execTrace ops (by intro b hb; simp [initStore] at hb), ?_⟩
  intro s book_id s' hinv hdel rest hmem
  unfold delete_book at hdel
  cases hrem : removeFirst book_id s.books with
  | none => rw [hrem] at hdel; simp at hdel
  | some bs =>
    rw [hrem] at hdel
    obtain ⟨l1, b, l2, hsplit, _, hbid, _⟩ := removeFirst_eq_some hrem
    have hb_mem : b ∈ s.books := by simp [hsplit]
    have hlt : book_id < s._next_id := hbid ▸ hinv b hb_mem
    have hs' : ({ s with books := bs } : Store) = s' := by
      simpa using hdel
    have hge : s'._next_id ≤ book_id := createdIds_lower_bound rest s' hmem
    have hge' : s._next_id ≤ book_id := by rw [← hs'] at hge; simpa using hge
    omega

/-- Witness for C1: a concrete one-book store satisfying the counter
invariant, a successful delete of id 1, and the conclusion that id 1 is not
produced by a subsequent create. -/
theorem claim1_ids_fresh_witness :
    counterAbove ⟨[⟨1, "a", "b", 0⟩], 2⟩ ∧
    delete_book ⟨[⟨1, "a", "b", 0⟩], 2⟩ 1 = (.ok (), ⟨[], 2⟩) ∧
    (1 : Int) ∉ createdIds ⟨[], 2⟩ [Op.create ⟨"Dune", "Herbert", 1965⟩] :=
  ⟨by decide, rfl,
    (claim1_ids_fresh [] []).2.2.2 ⟨[⟨1, "a", "b", 0⟩], 2⟩ 1 ⟨[], 2⟩
      (by decide) rfl [Op.create ⟨"Dune", "Herbert", 1965⟩]⟩

/-- C3: for any store holding no book with the given id, `get_book`,
`update_book` and `delete_book` all fail with `notFound` and return the
store (books and counter) unchanged; in particular `update_book 99` on the
initial empty store fails with `notFound` and leaves it unchanged. -/
theorem claim3_not_found (s : Store) (book_id : Int) (payload : BookIn)
    (h : ∀ b ∈ s.books, b.id ≠ book_id) :
    get_book s book_id = .error .notFound ∧
    update_book s book_id payload = (.error .notFound, s) ∧
    delete_book s book_id = (.error .notFound, s) ∧
    update_book initStore 99 payload = (.error .notFound, initStore) := by
  refine ⟨?_, ?_, ?_, rfl⟩
  · simp [get_book, findFirst_eq_none.2 h]
  · simp [update_book, replaceFirst_eq_none.2 h]
  · simp [delete_book, removeFirst_eq_none.2 h]

/-- Witness for C3: id 2 is absent from a concrete one-book store, and
`get_book` on it fails with `notFound`. -/
theorem claim3_not_found_witness :
    (∀ b ∈ (⟨[⟨1, "a", "b", 0⟩], 2⟩ : Store).books, b.id ≠ 2) ∧
    get_book ⟨[⟨1, "a", "b", 0⟩], 2⟩ 2 = .error .notFound :=
  ⟨by decide,
    (claim3_not_found ⟨[⟨1, "a", "b", 0⟩], 2⟩ 2 ⟨"x", "y", 0⟩ (by decide)).1⟩

/-- C4: for a store satisfying the counter invariant and a valid payload,
`create_book` returns the record made of the payload's fields together with
the freshly assigned id `_next_id`, and `get_book` on the returned id in the
resulting store returns exactly that record. -/
theorem claim4_create_then_get (s : Store) (payload : BookIn)
    (hvalid : payload.valid) (hinv : counterAbove s) :
    (create_book s payload).1 =
      { id := s._next_id, title := payload.title, author := payload.author,
        year := payload.year } ∧
    get_book (create_book s payload).2 (create_book s payload).1.id =
      .ok (create_book s payload).1 := by
  refine ⟨rfl, ?_⟩
  have hno : ∀ x ∈ s.books, x.id ≠ s._next_id :=
    fun x hx => ne_of_lt (hinv x hx)
  show get_book
      ⟨s.books ++ [⟨s._next_id, payload.title, payload.author, payload.year⟩],
        s._next_id + 1⟩ s._next_id = _
  simp [get_book, findFirst_append_of_no_match hno, findFirst, create_book]

/-- Witness for C4: creating a concrete valid book in the initial store and
reading it back through `get_book`. -/
theorem claim4_create_then_get_witness :
    BookIn.valid ⟨"Dune", "Herbert", 1965⟩ ∧
    counterAbove initStore ∧
    (create_book initStore ⟨"Dune", "Herbert", 1965⟩).1 =
      ⟨1, "Dune", "Herbert", 1965⟩ :=
  ⟨by decide, by decide,
    (claim4_create_then_get initStore ⟨"Dune", "Herbert", 1965⟩
      (by decide) (by decide)).1⟩

/-- C10: every id handed out by `create_book` along any trace of mutating
operations starting at the initial store is at least 1; id 0 is never
assigned. -/
theorem claim10_ids_positive (ops : List Op) (i : Int)
    (h : i ∈ createdIds initStore ops) : 1 ≤ i :=
  createdIds_lower_bound ops initStore h

/-- Witness for C10: the single create in a one-operation trace from the
initial store returns id 1, which is at least 1. -/
theorem claim10_ids_positive_witness :
    (1 : Int) ∈ createdIds initStore
      [Op.create { title := "Dune", author := "Herbert", year := 1965 }] ∧
    (1 : Int) ≤ 1 :=
  ⟨by decide,
    claim10_ids_positive
      [Op.create { title := "Dune", author := "Herbert", year := 1965 }] 1
      (by decide)⟩

/-- C2: saving any store whose books satisfy the record field constraints
and then loading the resulting file content reproduces exactly the saved
list of books (same ids, same field values, same order), whatever store the
load starts from. -/
theorem claim2_round_trip (s s0 : Store) (h : ∀ b ∈ s.books, b.validFields) :
    ∃ t : Store, load_books (some (save_books s)) s0 = some t ∧
      t.books = s.books := by
  refine ⟨⟨s.books, if s.books.isEmpty then 1 else maxId s.books + 1⟩, ?_, rfl⟩
  simp [load_books, save_books, parseAll_map_toRaw_of_valid h]

/-- Witness for C2: a concrete one-book store round-trips through
`save_books` and `load_books`. -/
theorem claim2_round_trip_witness :
    (∀ b ∈ (⟨[⟨1, "Dune", "Herbert", 1965⟩], 2⟩ : Store).books,
      b.validFields) ∧
    ∃ t : Store,
      load_books (some (save_books ⟨[⟨1, "Dune", "Herbert", 1965⟩], 2⟩))
        initStore = some t ∧
      t.books = (⟨[⟨1, "Dune", "Herbert", 1965⟩], 2⟩ : Store).books :=
  ⟨by decide,
    claim2_round_trip ⟨[⟨1, "Dune", "Herbert", 1965⟩], 2⟩ initStore (by decide)⟩

/-- C5: updating an id that is present replaces the first matching record
wholesale (same id, the supplied title/author/year), returns the updated
record, and a subsequent `get_book` on that id returns the new record. -/
theorem claim5_update_replaces (s : Store) (book_id : Int) (payload : BookIn)
    (h : ∃ b ∈ s.books, b.id = book_id) :
    ∃ s' : Store,
      update_book s book_id payload =
        (.ok ⟨book_id, payload.title, payload.author, payload.year⟩, s') ∧
      get_book s' book_id =
        .ok ⟨book_id, payload.title, payload.author, payload.year⟩ := by
  obtain ⟨b, hb, hbid⟩ := h
  cases hrep : replaceFirst book_id
      ⟨book_id, payload.title, payload.author, payload.year⟩ s.books with
  | none => exact absurd hbid (replaceFirst_eq_none.1 hrep b hb)
  | some bs =>
    refine ⟨{ s with books := bs }, by simp [update_book, hrep], ?_⟩
    obtain ⟨l1, c, l2, hsplit, hl1, hcid, rfl⟩ := replaceFirst_eq_some hrep
    simp [get_book, findFirst_append_of_no_match hl1, findFirst]

/-- Witness for C5: updating the only book of a concrete store. -/
theorem claim5_update_replaces_witness :
    (∃ b ∈ (⟨[⟨1, "a", "b", 0⟩], 2⟩ : Store).books, b.id = 1) ∧
    ∃ s' : Store,
      update_book ⟨[⟨1, "a", "b", 0⟩], 2⟩ 1 ⟨"x", "y", 3⟩ =
        (.ok ⟨1, "x", "y", 3⟩, s') ∧
      get_book s' 1 = .ok ⟨1, "x", "y", 3⟩ :=
  ⟨by decide,
    claim5_update_replaces ⟨[⟨1, "a", "b", 0⟩], 2⟩ 1 ⟨"x", "y", 3⟩ (by decide)⟩

/-- C6: deleting an id that is present (with ids pairwise distinct, the
store invariant) succeeds with no content, after which `get_book` on that id
fails with `notFound` and the listing holds no record with that id. -/
theorem claim6_delete_removes (s : Store) (book_id : Int)
    (hmem : ∃ b ∈ s.books, b.id = book_id)
    (hnodup : (s.books.map Book.id).Nodup) :
    ∃ s' : Store,
      delete_book s book_id = (.ok (), s') ∧
      get_book s' book_id = .error .notFound ∧
      ∀ b ∈ get_books s', b.id ≠ book_id := by
  obtain ⟨b, hb, hbid⟩ := hmem
  cases hrem : removeFirst book_id s.books with
  | none => exact absurd hbid (removeFirst_eq_none.1 hrem b hb)
  | some bs =>
    obtain ⟨l1, c, l2, hsplit, hl1, hcid, rfl⟩ := removeFirst_eq_some hrem
    have hno : ∀ x ∈ l1 ++ l2, x.id ≠ book_id := by
      intro x hx hxid
      have h1 : ((l1 ++ c :: l2).map Book.id).Nodup := by
        rw [← hsplit]; exact hnodup
      rw [List.map_append, List.map_cons] at h1
      have h2 := (List.nodup_cons.1 (List.nodup_middle.1 h1)).1
      apply h2
      rw [← List.map_append]
      have hcx : c.id = x.id := by rw [hcid, hxid]
      rw [hcx]
      exact List.mem_map_of_mem Book.id hx
    refine ⟨{ s with books := l1 ++ l2 }, by simp [delete_book, hrem], ?_, ?_⟩
    · simp [get_book, findFirst_eq_none.2 hno]
    · exact hno

/-- Witness for C6: deleting the first of two books of a concrete store. -/
theorem claim6_delete_removes_witness :
    (∃ b ∈ (⟨[⟨1, "a", "b", 0⟩, ⟨2, "c", "d", 1⟩], 3⟩ : Store).books,
      b.id = 1) ∧
    ((⟨[⟨1, "a", "b", 0⟩, ⟨2, "c", "d", 1⟩], 3⟩ : Store).books.map
      Book.id).Nodup ∧
    ∃ s' : Store,
      delete_book ⟨[⟨1, "a", "b", 0⟩, ⟨2, "c", "d", 1⟩], 3⟩ 1 =
        (.ok (), s') ∧
      get_book s' 1 = .error .notFound ∧
      ∀ b ∈ get_books s', b.id ≠ 1 :=
  ⟨by decide, by decide,
    claim6_delete_removes ⟨[⟨1, "a", "b", 0⟩, ⟨2, "c", "d", 1⟩], 3⟩ 1
      (by decide) (by decide)⟩

/-- C7 counterexample: the file item `{id: -1, title: "a", author: "b",
year: 0}` is not in the claimed Record shape (its id is negative), so the
claim requires `load_books` to fail on it; instead the load succeeds, and it
even sets the id counter to `-1 + 1 = 0`. -/
theorem claim7_counterexample :
    load_books (some [⟨-1, "a", "b", 0⟩]) initStore ≠ none ∧
    load_books (some [⟨-1, "a", "b", 0⟩]) initStore =
      some ⟨[⟨-1, "a", "b", 0⟩], 0⟩ :=
  ⟨by decide, by decide⟩

/-- C7 as amended: `load_books` leaves the state untouched when the file is
absent; on a present file it succeeds exactly when every item decodes as a
record with non-empty title and author and year at least 0 — the id may be
any integer, with no lower bound; and on success the loaded books are
precisely the file items and the id counter becomes `maxId + 1`, or `1` when
the loaded list is empty. -/
theorem claim7_load (s : Store) (data : List RawBook) :
    load_books none s = some s ∧
    ((∀ r ∈ data, 1 ≤ r.title.length ∧ 1 ≤ r.author.length ∧ 0 ≤ r.year) ↔
      ∃ t, load_books (some data) s = some t) ∧
    (∀ t, load_books (some data) s = some t →
      t.books.map Book.toRaw = data ∧
      t._next_id = if t.books.isEmpty then 1 else maxId t.books + 1) := by
  refine ⟨rfl, ?_, ?_⟩
  · rw [parseAll_isSome_iff]
    constructor
    · rintro ⟨bs, hbs⟩
      exact ⟨⟨bs, if bs.isEmpty then 1 else maxId bs + 1⟩,
        by rw [load_books_some_eq, hbs]⟩
    · rintro ⟨t, ht⟩
      rw [load_books_some_eq] at ht
      cases hp : parseAll data with
      | none => rw [hp] at ht; exact absurd ht (by simp)
      | some bs => exact ⟨bs, rfl⟩
  · intro t ht
    rw [load_books_some_eq] at ht
    cases hp : parseAll data with
    | none => rw [hp] at ht; exact absurd ht (by simp)
    | some bs =>
      rw [hp] at ht
      injection ht with ht'
      rw [← ht']
      exact ⟨parseAll_map_toRaw hp, rfl⟩

/-- Witness for C7 (amended): loading a concrete one-item file succeeds with
that item and counter 2. -/
theorem claim7_load_witness :
    (∀ r ∈ [(⟨1, "Dune", "Herbert", 1965⟩ : RawBook)],
      1 ≤ r.title.length ∧ 1 ≤ r.author.length ∧ 0 ≤ r.year) ∧
    ∃ t, load_books (some [⟨1, "Dune", "Herbert", 1965⟩]) initStore = some t :=
  ⟨by decide,
    (claim7_load initStore [⟨1, "Dune", "Herbert", 1965⟩]).2.1.1 (by decide)⟩

/-- C8: `get_books` returns the whole list (it has no failure path);
`create_book` appends the new record at the end leaving the rest in place;
a successful `update_book` replaces exactly the first matching record in
place, keeping every other record at its position; and a successful
`delete_book` removes exactly the first matching record, keeping the
remaining records in their relative order. -/
theorem claim8_order (s : Store) (payload : BookIn) (book_id : Int) :
    get_books s = s.books ∧
    (create_book s payload).2.books = s.books ++ [(create_book s payload).1] ∧
    (∀ (r : Book) (s' : Store), update_book s book_id payload = (.ok r, s') →
      ∃ l1 b l2, s.books = l1 ++ b :: l2 ∧ b.id = book_id ∧
        (∀ x ∈ l1, x.id ≠ book_id) ∧ s'.books = l1 ++ r :: l2 ∧
        s'._next_id = s._next_id) ∧
    (∀ s' : Store, delete_book s book_id = (.ok (), s') →
      ∃ l1 b l2, s.books = l1 ++ b :: l2 ∧ b.id = book_id ∧
        (∀ x ∈ l1, x.id ≠ book_id) ∧ s'.books = l1 ++ l2 ∧
        s'._next_id = s._next_id) := by
  refine ⟨rfl, rfl, ?_, ?_⟩
  · intro r s' hup
    rw [update_book_eq] at hup
    cases hrep : replaceFirst book_id
        ⟨book_id, payload.title, payload.author, payload.year⟩ s.books with
    | none => rw [hrep] at hup; simp at hup
    | some bs =>
      rw [hrep] at hup
      simp only [Prod.mk.injEq, Except.ok.injEq] at hup
      obtain ⟨l1, b, l2, hsplit, hl1, hbid, rfl⟩ := replaceFirst_eq_some hrep
      refine ⟨l1, b, l2, hsplit, hbid, hl1, ?_, ?_⟩
      · rw [← hup.2, hup.1]
      · rw [← hup.2]
  · intro s' hdel
    unfold delete_book at hdel
    cases hrem : removeFirst book_id s.books with
    | none => rw [hrem] at hdel; simp at hdel
    | some bs =>
      rw [hrem] at hdel
      simp only [Prod.mk.injEq, true_and] at hdel
      obtain ⟨l1, b, l2, hsplit, hl1, hbid, rfl⟩ := removeFirst_eq_some hrem
      refine ⟨l1, b, l2, hsplit, hbid, hl1, ?_, ?_⟩
      · rw [← hdel]
      · rw [← hdel]

/-- Witness for C8: updating the only book of a concrete store replaces it
in place, with the decomposition made explicit. -/
theorem claim8_order_witness :
    ∃ l1 b l2, (⟨[⟨1, "a", "b", 0⟩], 2⟩ : Store).books = l1 ++ b :: l2 ∧
      b.id = 1 ∧ (∀ x ∈ l1, x.id ≠ 1) ∧
      (⟨[⟨1, "x", "y", 3⟩], 2⟩ : Store).books =
        l1 ++ (⟨1, "x", "y", 3⟩ : Book) :: l2 ∧
      (⟨[⟨1, "x", "y", 3⟩], 2⟩ : Store)._next_id =
        (⟨[⟨1, "a", "b", 0⟩], 2⟩ : Store)._next_id :=
  (claim8_order ⟨[⟨1, "a", "b", 0⟩], 2⟩ ⟨"x", "y", 3⟩ 1).2.2.1
    ⟨1, "x", "y", 3⟩ ⟨[⟨1, "x", "y", 3⟩], 2⟩ rfl

end LibraryBooks
